import Mathlib

/-!
Shallow embedding of `resource_folder.py` from the demo-mcp repository:
the resource registry patches (`add_resource`, `remove_resource`), the
subscription handlers (`_on_subscribe`, `_on_unsubscribe`), the tracked
list handler (`_tracked_list`) and the folder watcher poll cycle
(`watch_resources`).  Python dicts are modelled as association lists with
dict semantics (unique keys via replace-in-place insertion and full-key
deletion), Python sets as duplicate-free lists, and outgoing
notifications (`send_resource_list_changed`, `send_resource_updated`) as
an explicit event trace.
-/

namespace DemoMcp

/-- Resource URIs are strings (the source always keys by `str(uri)`). -/
abbrev Uri := String

/-- Sessions are opaque handles compared by identity; modelled as naturals. -/
abbrev Session := Nat

/-- A registered resource, as built by the watcher:
`FunctionResource(uri=AnyUrl(uri), fn=_read_file, mime_type="text/plain")`.
`providerPath` records which file the lazy content provider `_read_file`
reads on each access. -/
structure Resource where
  uri : Uri
  providerPath : String
  mime_type : String
deriving DecidableEq

/-- First-match association lookup, modelling Python dict indexing and `get`. -/
def lookup {β : Type} (k : String) : List (String × β) → Option β
  | [] => none
  | (k', v) :: t => if k' = k then some v else lookup k t

/-- Python dict assignment `m[k] = v`: replace in place if the key is
present, otherwise append (dict insertion order). -/
def insertKey {β : Type} (k : String) (v : β) : List (String × β) → List (String × β)
  | [] => [(k, v)]
  | (k', v') :: t => if k' = k then (k, v) :: t else (k', v') :: insertKey k v t

/-- Python dict deletion `del m[k]` / `m.pop(k, None)`: drop the key's entry. -/
def eraseKey {β : Type} (k : String) : List (String × β) → List (String × β)
  | [] => []
  | (k', v) :: t => if k' = k then eraseKey k t else (k', v) :: eraseKey k t

/-- Python `m.get(k, d)`: read without inserting. -/
def getD {β : Type} (k : String) (m : List (String × β)) (d : β) : β :=
  (lookup k m).getD d

/-- Python `set.add`: insert only when absent. -/
def setAdd (l : List Session) (s : Session) : List Session :=
  if s ∈ l then l else l ++ [s]

/-- Python `set.discard`: remove when present, no error when absent. -/
def setDiscard : List Session → Session → List Session
  | [], _ => []
  | x :: t, s => if x = s then setDiscard t s else x :: setDiscard t s

/-- The registry's internal map `self._resources`. -/
abbrev ResMap := List (Uri × Resource)

/-- The module-level `subscribers = defaultdict(set)` map. -/
abbrev SubMap := List (Uri × List Session)

/-- A watcher snapshot `{f: f.stat().st_mtime for f in ...}`:
file path to last observed modification time. -/
abbrev Snap := List (String × Nat)

/-- The mutable state of the patched server: the registry's resource map,
the per-URI `subscribers` map and the global `all_sessions` set. -/
structure ServerState where
  resources : ResMap
  subscribers : SubMap
  all_sessions : List Session
deriving DecidableEq

/-- One outgoing notification: `sess.send_resource_list_changed()` or
`sess.send_resource_updated(uri)`. -/
inductive Event where
  | listChanged (sess : Session)
  | resourceUpdated (sess : Session) (uri : Uri)
deriving DecidableEq

/-- Modelled from the spec: the wrapped library method
`ResourceManager.add_resource` (`orig_add` in the source) is not part of
this repository's sources; per the spec, `Add(resource)` "inserts or
replaces the resource keyed by `uri`". -/
def orig_add (res : ResMap) (r : Resource) : ResMap :=
  insertKey r.uri r res

/-- The patched `add_resource`: call `orig_add`, then broadcast
`send_resource_list_changed` to every session in `all_sessions`. -/
def add_resource (st : ServerState) (r : Resource) : ServerState × List Event :=
  ({ st with resources := orig_add st.resources r },
   st.all_sessions.map Event.listChanged)

/-- The introduced `remove_resource`: delete the uri from `_resources`
when present, broadcast list-changed to every session in `all_sessions`
(unconditionally), then `subscribers.pop(uri_str, None)`. -/
def remove_resource (st : ServerState) (uri : Uri) : ServerState × List Event :=
  let resources :=
    if (lookup uri st.resources).isSome then eraseKey uri st.resources else st.resources
  let events := st.all_sessions.map Event.listChanged
  let subscribers := eraseKey uri st.subscribers
  ({ resources := resources, subscribers := subscribers,
     all_sessions := st.all_sessions }, events)

/-- The subscribe handler: `subscribers[key].add(sess)` on the
defaultdict (creates the entry when absent, then adds the session). -/
def _on_subscribe (st : ServerState) (uri : Uri) (sess : Session) : ServerState :=
  let cur := getD uri st.subscribers []
  { st with subscribers := insertKey uri (setAdd cur sess) st.subscribers }

/-- The unsubscribe handler: `subscribers[key].discard(sess)` on the
defaultdict (creates the entry when absent, then discards the session). -/
def _on_unsubscribe (st : ServerState) (uri : Uri) (sess : Session) : ServerState :=
  let cur := getD uri st.subscribers []
  { st with subscribers := insertKey uri (setDiscard cur sess) st.subscribers }

/-- The wrapped list handler `_tracked_list`: add the calling session to
`all_sessions`, then return the resource listing (the wrapped
`orig_list`, modelled from the spec: `List()` returns the current
resources without mutating state). -/
def _tracked_list (st : ServerState) (sess : Session) : ServerState × List Resource :=
  let st' := { st with all_sessions := setAdd st.all_sessions sess }
  (st', st'.resources.map Prod.snd)

/-- `subscribers.get(key, [])`: the sessions interested in a uri
(the spec's `InterestedSessions`). -/
def interestedSessions (st : ServerState) (uri : Uri) : List Session :=
  getD uri st.subscribers []

/-- `f"file://{f.resolve()}"` (paths are taken already resolved). -/
def fileUri (f : String) : Uri :=
  "file://" ++ f

/-- The resource the watcher registers for a file: a `FunctionResource`
whose provider lazily reads that file, with mime type `text/plain`. -/
def mkFileResource (f : String) : Resource :=
  ⟨fileUri f, f, "text/plain"⟩

/-- One iteration of the watcher's first loop (`for f, mtime in
current.items()`): a file absent from the previous snapshot is added to
the registry; a file whose mtime changed gets `send_resource_updated`
to the uri's subscribers; otherwise nothing happens. -/
def step_file (last_snap : Snap) (acc : ServerState × List Event) (fm : String × Nat) :
    ServerState × List Event :=
  let uri := fileUri fm.1
  match lookup fm.1 last_snap with
  | none =>
      let r := add_resource acc.1 (mkFileResource fm.1)
      (r.1, acc.2 ++ r.2)
  | some old =>
      if old ≠ fm.2 then
        (acc.1, acc.2 ++ (getD uri acc.1.subscribers []).map
          (fun s => Event.resourceUpdated s uri))
      else acc

/-- One iteration of the watcher's deletion loop
(`for f in set(last_snap) - set(current)`): `remove_resource(uri)`. -/
def step_removed (acc : ServerState × List Event) (fm : String × Nat) :
    ServerState × List Event :=
  let r := remove_resource acc.1 (fileUri fm.1)
  (r.1, acc.2 ++ r.2)

/-- The files of the previous snapshot absent from the current listing
(`set(last_snap) - set(current)`). -/
def removedOf (last_snap current : Snap) : Snap :=
  last_snap.filter (fun fm => (lookup fm.1 current).isNone)

/-- One poll cycle of `watch_resources`, given the previous snapshot and
the current directory listing: process new and modified files, then
deletions, and replace the snapshot with `current`. -/
def watch_cycle (st : ServerState) (last_snap current : Snap) :
    (ServerState × List Event) × Snap :=
  let acc1 := current.foldl (step_file last_snap) (st, [])
  ((removedOf last_snap current).foldl step_removed acc1, current)

/-- The notifications one file of `current` contributes in a cycle, as a
function of the previous snapshot and the (unchanging) `subscribers` and
`all_sessions` at cycle start: a list-changed batch for a new file, an
updated batch to the uri's subscribers for a modified file, nothing for
an unchanged file.  Used to characterise `watch_cycle`'s event trace. -/
def perFileEvents (last_snap : Snap) (subs : SubMap) (sess : List Session)
    (fm : String × Nat) : List Event :=
  match lookup fm.1 last_snap with
  | none => sess.map Event.listChanged
  | some old =>
      if old ≠ fm.2 then
        (getD (fileUri fm.1) subs []).map (fun s => Event.resourceUpdated s (fileUri fm.1))
      else []

/-- The registry contents after the watcher's first loop: every new file
upserted, in listing order.  Used to characterise `watch_cycle`. -/
def phase1Res (last_snap : Snap) : List (String × Nat) → ResMap → ResMap
  | [], res => res
  | fm :: t, res =>
      phase1Res last_snap t
        (if (lookup fm.1 last_snap).isNone then
          insertKey (fileUri fm.1) (mkFileResource fm.1) res
        else res)

/-- Erasing the uri of every file of a list from a string-keyed map.
Used to characterise the watcher's deletion loop. -/
def eraseFold {β : Type} : List (String × Nat) → List (String × β) → List (String × β)
  | [], m => m
  | fm :: t, m => eraseFold t (eraseKey (fileUri fm.1) m)

/-- Whether an event is a resource-updated notification for the given uri. -/
def isUpdFor (u : Uri) : Event → Bool
  | Event.resourceUpdated _ v => v = u
  | Event.listChanged _ => false

/-! ### Basic lemmas about the dict and set models -/

theorem lookup_insertKey_self {β : Type} (k : String) (v : β) (m : List (String × β)) :
    lookup k (insertKey k v m) = some v := by
  induction m with
  | nil => simp [insertKey, lookup]
  | cons hd t ih =>
    by_cases hk : hd.1 = k
    · simp [insertKey, hk, lookup]
    · simp [insertKey, hk, lookup, ih]

theorem lookup_insertKey_ne {β : Type} (k k' : String) (v : β) (hne : k' ≠ k)
    (m : List (String × β)) : lookup k' (insertKey k v m) = lookup k' m := by
  have hkk : k ≠ k' := Ne.symm hne
  induction m with
  | nil => simp [insertKey, lookup, hkk]
  | cons hd t ih =>
    by_cases ha : hd.1 = k
    · simp [insertKey, ha, lookup, hkk]
    · by_cases hb : hd.1 = k'
      · simp [insertKey, ha, lookup, hb, hne]
      · simp [insertKey, ha, lookup, hb, ih]

theorem lookup_eraseKey_self {β : Type} (k : String) (m : List (String × β)) :
    lookup k (eraseKey k m) = none := by
  induction m with
  | nil => simp [eraseKey, lookup]
  | cons hd t ih =>
    by_cases ha : hd.1 = k
    · simp [eraseKey, ha, ih]
    · simp [eraseKey, ha, lookup, ih]

theorem lookup_eraseKey_ne {β : Type} (k k' : String) (hne : k' ≠ k)
    (m : List (String × β)) : lookup k' (eraseKey k m) = lookup k' m := by
  have hkk : k ≠ k' := Ne.symm hne
  induction m with
  | nil => simp [eraseKey]
  | cons hd t ih =>
    by_cases ha : hd.1 = k
    · have hb : hd.1 ≠ k' := by
        rw [ha]; exact hkk
      simp [eraseKey, ha, lookup, hb, hkk, ih]
    · by_cases hb : hd.1 = k'
      · simp [eraseKey, ha, lookup, hb, hne]
      · simp [eraseKey, ha, lookup, hb, ih]

theorem eraseKey_of_lookup_none {β : Type} (k : String) (m : List (String × β))
    (h : lookup k m = none) : eraseKey k m = m := by
  induction m with
  | nil => rfl
  | cons hd t ih =>
    by_cases ha : hd.1 = k
    · rw [show hd = (hd.1, hd.2) from rfl] at h
      simp [lookup, ha] at h
    · rw [show hd = (hd.1, hd.2) from rfl] at h
      simp only [lookup, if_neg ha] at h
      simp [eraseKey, ha, ih h]

theorem insertKey_of_lookup_some {β : Type} (k : String) (v : β) (m : List (String × β))
    (h : lookup k m = some v) : insertKey k v m = m := by
  induction m with
  | nil => simp [lookup] at h
  | cons hd t ih =>
    by_cases ha : hd.1 = k
    · rw [show hd = (hd.1, hd.2) from rfl] at h ⊢
      simp only [lookup, if_pos ha, Option.some.injEq] at h
      simp [insertKey, ha, h]
    · rw [show hd = (hd.1, hd.2) from rfl] at h ⊢
      simp only [lookup, if_neg ha] at h
      simp [insertKey, ha, ih h]

theorem setAdd_mem (l : List Session) (s : Session) : s ∈ setAdd l s := by
  by_cases h : s ∈ l
  · simp [setAdd, h]
  · simp [setAdd, h]

theorem setAdd_of_mem {l : List Session} {s : Session} (h : s ∈ l) : setAdd l s = l := by
  simp [setAdd, h]

theorem mem_setAdd_of_mem {l : List Session} {s s' : Session} (h : s ∈ l) :
    s ∈ setAdd l s' := by
  by_cases h' : s' ∈ l
  · simpa [setAdd, h']
  · simp [setAdd, h', h]

theorem setDiscard_of_not_mem {s : Session} :
    ∀ {l : List Session}, s ∉ l → setDiscard l s = l
  | [], _ => rfl
  | x :: t, h => by
    have hx : x ≠ s := fun he => h (he ▸ List.mem_cons_self x t)
    have ht : s ∉ t := fun hm => h (List.mem_cons_of_mem x hm)
    simp [setDiscard, hx, setDiscard_of_not_mem ht]

theorem setAdd_nodup {l : List Session} (h : l.Nodup) (s : Session) :
    (setAdd l s).Nodup := by
  by_cases hm : s ∈ l
  · simpa [setAdd, hm]
  · simp [setAdd, hm, List.nodup_append, h]

theorem count_setAdd_self {l : List Session} (h : l.Nodup) (s : Session) :
    (setAdd l s).count s = 1 := by
  by_cases hm : s ∈ l
  · rw [setAdd_of_mem hm]
    exact List.count_eq_one_of_mem h hm
  · simp [setAdd, hm, List.count_append, List.count_eq_zero_of_not_mem hm]

/-! ### Characterisation of the watcher poll cycle -/

theorem fileUri_injective : Function.Injective fileUri := by
  intro a b h
  have h2 : ("file://" ++ a).data = ("file://" ++ b).data := congrArg String.data h
  simp [String.data_append] at h2
  exact String.ext h2

theorem eraseKey_cond {β : Type} (k : String) (m : List (String × β)) :
    (if (lookup k m).isSome then eraseKey k m else m) = eraseKey k m := by
  cases h : lookup k m with
  | none => simp [h, eraseKey_of_lookup_none k m h]
  | some v => simp [h]

theorem phase1_char (last_snap : Snap) (l : List (String × Nat)) :
    ∀ (res : ResMap) (subs : SubMap) (sess : List Session) (evs : List Event),
    l.foldl (step_file last_snap) (⟨res, subs, sess⟩, evs) =
      (⟨phase1Res last_snap l res, subs, sess⟩,
       evs ++ (l.map (perFileEvents last_snap subs sess)).flatten) := by
  induction l with
  | nil =>
    intro res subs sess evs
    simp [phase1Res]
  | cons hd t ih =>
    intro res subs sess evs
    rw [List.foldl_cons]
    cases hl : lookup hd.1 last_snap with
    | none =>
      have hstep : step_file last_snap (⟨res, subs, sess⟩, evs) hd =
          (⟨insertKey (fileUri hd.1) (mkFileResource hd.1) res, subs, sess⟩,
           evs ++ sess.map Event.listChanged) := by
        simp [step_file, hl, add_resource, orig_add, mkFileResource]
      rw [hstep, ih]
      simp [phase1Res, perFileEvents, hl]
    | some old =>
      by_cases hm : old = hd.2
      · have hstep : step_file last_snap (⟨res, subs, sess⟩, evs) hd =
            (⟨res, subs, sess⟩, evs) := by
          simp [step_file, hl, hm]
        rw [hstep, ih]
        simp [phase1Res, perFileEvents, hl, hm]
      · have hstep : step_file last_snap (⟨res, subs, sess⟩, evs) hd =
            (⟨res, subs, sess⟩,
             evs ++ (getD (fileUri hd.1) subs []).map
               (fun s => Event.resourceUpdated s (fileUri hd.1))) := by
          simp [step_file, hl, hm]
        rw [hstep, ih]
        simp [phase1Res, perFileEvents, hl, hm]

theorem phase2_char (l : List (String × Nat)) :
    ∀ (res : ResMap) (subs : SubMap) (sess : List Session) (evs : List Event),
    l.foldl step_removed (⟨res, subs, sess⟩, evs) =
      (⟨eraseFold l res, eraseFold l subs, sess⟩,
       evs ++ (l.map (fun _ => sess.map Event.listChanged)).flatten) := by
  induction l with
  | nil =>
    intro res subs sess evs
    simp [eraseFold]
  | cons hd t ih =>
    intro res subs sess evs
    simp only [List.foldl_cons, step_removed, remove_resource, eraseKey_cond]
    rw [ih]
    simp [eraseFold]

theorem watch_cycle_char (st : ServerState) (last_snap current : Snap) :
    watch_cycle st last_snap current =
      ((⟨eraseFold (removedOf last_snap current)
            (phase1Res last_snap current st.resources),
         eraseFold (removedOf last_snap current) st.subscribers,
         st.all_sessions⟩,
        (current.map (perFileEvents last_snap st.subscribers st.all_sessions)).flatten ++
        ((removedOf last_snap current).map
          (fun _ => st.all_sessions.map Event.listChanged)).flatten),
       current) := by
  obtain ⟨res, subs, sess⟩ := st
  simp only [watch_cycle, phase1_char, phase2_char]
  simp

theorem lookup_phase1Res_of_ne (last_snap : Snap) (u : Uri) :
    ∀ (l : List (String × Nat)), (∀ fm ∈ l, fileUri fm.1 ≠ u) →
    ∀ res, lookup u (phase1Res last_snap l res) = lookup u res := by
  intro l
  induction l with
  | nil =>
    intro _ res
    simp [phase1Res]
  | cons hd t ih =>
    intro h res
    have hhd : fileUri hd.1 ≠ u := h hd (List.mem_cons_self hd t)
    have ht : ∀ fm ∈ t, fileUri fm.1 ≠ u := fun fm hm => h fm (List.mem_cons_of_mem hd hm)
    by_cases hn : (lookup hd.1 last_snap).isNone
    · simp only [phase1Res, if_pos hn]
      rw [ih ht]
      exact lookup_insertKey_ne (fileUri hd.1) u (mkFileResource hd.1) (Ne.symm hhd) res
    · simp only [phase1Res, if_neg hn]
      exact ih ht res

theorem lookup_phase1Res_new (last_snap : Snap) (f : String) :
    ∀ (l : List (String × Nat)) (m : Nat), (f, m) ∈ l → (l.map Prod.fst).Nodup →
    lookup f last_snap = none →
    ∀ res, lookup (fileUri f) (phase1Res last_snap l res) = some (mkFileResource f) := by
  intro l
  induction l with
  | nil =>
    intro m hmem
    simp at hmem
  | cons hd t ih =>
    intro m hmem hnd hnew res
    have hnd2 : hd.1 ∉ t.map Prod.fst ∧ (t.map Prod.fst).Nodup := by
      rw [List.map_cons, List.nodup_cons] at hnd
      exact hnd
    rcases List.mem_cons.mp hmem with heq | hmemt
    · have hf1 : hd.1 = f := by rw [← heq]
      have hn : (lookup hd.1 last_snap).isNone := by simp [hf1, hnew]
      simp only [phase1Res, if_pos hn]
      have ht : ∀ fm ∈ t, fileUri fm.1 ≠ fileUri hd.1 := by
        intro fm hm he
        exact hnd2.1 (by
          have hfe : fm.1 = hd.1 := fileUri_injective he
          exact hfe ▸ List.mem_map_of_mem Prod.fst hm)
      rw [hf1] at ht
      rw [hf1, lookup_phase1Res_of_ne last_snap (fileUri f) t ht]
      exact lookup_insertKey_self (fileUri f) (mkFileResource f) res
    · have hne : hd.1 ≠ f := by
        intro he
        exact hnd2.1 (he ▸ List.mem_map_of_mem Prod.fst hmemt)
      simp only [phase1Res]
      exact ih m hmemt hnd2.2 hnew _

theorem lookup_eraseFold_of_ne {β : Type} (u : Uri) :
    ∀ (l : List (String × Nat)), (∀ fm ∈ l, fileUri fm.1 ≠ u) →
    ∀ m : List (String × β), lookup u (eraseFold l m) = lookup u m := by
  intro l
  induction l with
  | nil =>
    intro _ m
    simp [eraseFold]
  | cons hd t ih =>
    intro h m
    have hhd : fileUri hd.1 ≠ u := h hd (List.mem_cons_self hd t)
    have ht : ∀ fm ∈ t, fileUri fm.1 ≠ u := fun fm hm => h fm (List.mem_cons_of_mem hd hm)
    simp only [eraseFold]
    rw [ih ht]
    exact lookup_eraseKey_ne (fileUri hd.1) u (Ne.symm hhd) m

theorem lookup_eraseFold_none {β : Type} (u : Uri) :
    ∀ (l : List (String × Nat)) (m : List (String × β)),
    lookup u m = none → lookup u (eraseFold l m) = none := by
  intro l
  induction l with
  | nil =>
    intro m h
    simpa [eraseFold] using h
  | cons hd t ih =>
    intro m h
    simp only [eraseFold]
    apply ih
    by_cases he : u = fileUri hd.1
    · rw [he]
      exact lookup_eraseKey_self (fileUri hd.1) m
    · rw [lookup_eraseKey_ne (fileUri hd.1) u he m]
      exact h

theorem lookup_eraseFold_mem {β : Type} (f : String) (mt : Nat) :
    ∀ (l : List (String × Nat)), (f, mt) ∈ l →
    ∀ m : List (String × β), lookup (fileUri f) (eraseFold l m) = none := by
  intro l
  induction l with
  | nil =>
    intro hmem
    simp at hmem
  | cons hd t ih =>
    intro hmem m
    rcases List.mem_cons.mp hmem with heq | hmemt
    · subst heq
      simp only [eraseFold]
      exact lookup_eraseFold_none (fileUri f) t _ (lookup_eraseKey_self (fileUri f) m)
    · simp only [eraseFold]
      exact ih hmemt _

/-! ### Lemmas about the watcher's event trace -/

theorem perFileEvents_of_none (last_snap : Snap) (subs : SubMap) (sess : List Session)
    (fm : String × Nat) (h : lookup fm.1 last_snap = none) :
    perFileEvents last_snap subs sess fm = sess.map Event.listChanged := by
  unfold perFileEvents
  rw [h]

theorem perFileEvents_of_same (last_snap : Snap) (subs : SubMap) (sess : List Session)
    (fm : String × Nat) (old : Nat) (h : lookup fm.1 last_snap = some old)
    (hm : old = fm.2) : perFileEvents last_snap subs sess fm = [] := by
  unfold perFileEvents
  rw [h]
  show (if old ≠ fm.2 then
      (getD (fileUri fm.1) subs []).map (fun s => Event.resourceUpdated s (fileUri fm.1))
    else []) = []
  exact if_neg (not_not_intro hm)

theorem perFileEvents_of_mod (last_snap : Snap) (subs : SubMap) (sess : List Session)
    (fm : String × Nat) (old : Nat) (h : lookup fm.1 last_snap = some old)
    (hm : old ≠ fm.2) :
    perFileEvents last_snap subs sess fm =
      (getD (fileUri fm.1) subs []).map (fun s => Event.resourceUpdated s (fileUri fm.1)) := by
  unfold perFileEvents
  rw [h]
  show (if old ≠ fm.2 then
      (getD (fileUri fm.1) subs []).map (fun s => Event.resourceUpdated s (fileUri fm.1))
    else []) =
    (getD (fileUri fm.1) subs []).map (fun s => Event.resourceUpdated s (fileUri fm.1))
  exact if_pos hm

theorem perFileEvents_updated (last_snap : Snap) (subs : SubMap) (sess : List Session)
    (fm : String × Nat) (s : Session) (u : Uri)
    (h : Event.resourceUpdated s u ∈ perFileEvents last_snap subs sess fm) :
    s ∈ getD u subs [] := by
  cases hl : lookup fm.1 last_snap with
  | none =>
    rw [perFileEvents_of_none last_snap subs sess fm hl] at h
    simp at h
  | some old =>
    by_cases hm : old = fm.2
    · rw [perFileEvents_of_same last_snap subs sess fm old hl hm] at h
      simp at h
    · rw [perFileEvents_of_mod last_snap subs sess fm old hl hm] at h
      rcases List.mem_map.mp h with ⟨s', hs', he⟩
      have h1 : s' = s := by
        injection he
      have h2 : fileUri fm.1 = u := by
        injection he with _ h2
      rw [← h2, ← h1]
      exact hs'

theorem watch_cycle_updated_subscriber (st : ServerState) (last_snap current : Snap)
    (s : Session) (u : Uri)
    (h : Event.resourceUpdated s u ∈ (watch_cycle st last_snap current).1.2) :
    s ∈ interestedSessions st u := by
  rw [watch_cycle_char] at h
  rcases List.mem_append.mp h with h1 | h2
  · rcases List.mem_flatten.mp h1 with ⟨l', hl', hmem⟩
    rcases List.mem_map.mp hl' with ⟨fm, hfm, rfl⟩
    exact perFileEvents_updated last_snap st.subscribers st.all_sessions fm s u hmem
  · rcases List.mem_flatten.mp h2 with ⟨l', hl', hmem⟩
    rcases List.mem_map.mp hl' with ⟨fm, hfm, rfl⟩
    simp at hmem

theorem filter_flatten_map {α : Type} (p : Event → Bool) (f : α → List Event)
    (L : List α) :
    ((L.map f).flatten).filter p = (L.map (fun x => (f x).filter p)).flatten := by
  induction L with
  | nil => simp
  | cons hd t ih => simp [List.filter_append, ih]

theorem flatten_map_eq_nil {α : Type} (f : α → List Event) (L : List α)
    (h : ∀ x ∈ L, f x = []) : (L.map f).flatten = [] := by
  induction L with
  | nil => simp
  | cons hd t ih =>
    simp only [List.map_cons, List.flatten_cons, h hd (List.mem_cons_self hd t),
      List.nil_append]
    exact ih (fun x hx => h x (List.mem_cons_of_mem hd hx))

theorem filter_updFor_listChanged (u : Uri) (sess : List Session) :
    (sess.map Event.listChanged).filter (isUpdFor u) = [] := by
  rw [List.filter_eq_nil_iff]
  intro a ha
  rcases List.mem_map.mp ha with ⟨s, _, rfl⟩
  simp [isUpdFor]

theorem filter_updFor_perFile_ne (last_snap : Snap) (subs : SubMap) (sess : List Session)
    (u : Uri) (fm : String × Nat) (hne : fileUri fm.1 ≠ u) :
    (perFileEvents last_snap subs sess fm).filter (isUpdFor u) = [] := by
  cases hl : lookup fm.1 last_snap with
  | none =>
    rw [perFileEvents_of_none last_snap subs sess fm hl]
    exact filter_updFor_listChanged u sess
  | some old =>
    by_cases hm : old = fm.2
    · rw [perFileEvents_of_same last_snap subs sess fm old hl hm]
      simp
    · rw [perFileEvents_of_mod last_snap subs sess fm old hl hm, List.filter_eq_nil_iff]
      intro a ha
      rcases List.mem_map.mp ha with ⟨s, _, rfl⟩
      simp [isUpdFor, hne]

theorem filter_updFor_perFile_self (last_snap : Snap) (subs : SubMap)
    (sess : List Session) (g : String) (mg mg' : Nat)
    (hold : lookup g last_snap = some mg') (hmod : mg' ≠ mg) :
    (perFileEvents last_snap subs sess (g, mg)).filter (isUpdFor (fileUri g)) =
      (getD (fileUri g) subs []).map (fun s => Event.resourceUpdated s (fileUri g)) := by
  have hp : perFileEvents last_snap subs sess (g, mg) =
      (getD (fileUri g) subs []).map (fun s => Event.resourceUpdated s (fileUri g)) :=
    perFileEvents_of_mod last_snap subs sess (g, mg) mg' hold hmod
  rw [hp, List.filter_eq_self]
  intro a ha
  rcases List.mem_map.mp ha with ⟨s, _, rfl⟩
  simp [isUpdFor]

theorem flatten_filter_current (last_snap : Snap) (subs : SubMap) (sess : List Session)
    (g : String) (mg mg' : Nat) (hold : lookup g last_snap = some mg') (hmod : mg' ≠ mg) :
    ∀ current : List (String × Nat), (current.map Prod.fst).Nodup → (g, mg) ∈ current →
    (current.map
      (fun fm => (perFileEvents last_snap subs sess fm).filter (isUpdFor (fileUri g)))).flatten =
      (getD (fileUri g) subs []).map (fun s => Event.resourceUpdated s (fileUri g)) := by
  intro current
  induction current with
  | nil =>
    intro _ hmem
    simp at hmem
  | cons hd t ih =>
    intro hnd hmem
    have hnd2 : hd.1 ∉ t.map Prod.fst ∧ (t.map Prod.fst).Nodup := by
      rw [List.map_cons, List.nodup_cons] at hnd
      exact hnd
    rcases List.mem_cons.mp hmem with heq | hmemt
    · have hf1 : hd.1 = g := by rw [← heq]
      have hrest : ∀ fm ∈ t,
          (perFileEvents last_snap subs sess fm).filter (isUpdFor (fileUri g)) = [] := by
        intro fm hm
        apply filter_updFor_perFile_ne
        intro he
        have hfg : fm.1 = g := fileUri_injective he
        have hmm : fm.1 ∈ t.map Prod.fst := List.mem_map_of_mem Prod.fst hm
        rw [hfg, ← hf1] at hmm
        exact hnd2.1 hmm
      rw [List.map_cons, List.flatten_cons, flatten_map_eq_nil _ t hrest, List.append_nil,
        ← heq]
      exact filter_updFor_perFile_self last_snap subs sess g mg mg' hold hmod
    · have hne : fileUri hd.1 ≠ fileUri g := by
        intro he
        have hfg : hd.1 = g := fileUri_injective he
        have hmm : (g, mg).1 ∈ t.map Prod.fst := List.mem_map_of_mem Prod.fst hmemt
        rw [← hfg] at hmm
        exact hnd2.1 hmm
      rw [List.map_cons, List.flatten_cons,
        filter_updFor_perFile_ne last_snap subs sess (fileUri g) hd hne, List.nil_append]
      exact ih hnd2.2 hmemt

theorem watch_cycle_filter_updated (st : ServerState) (last_snap current : Snap)
    (g : String) (mg mg' : Nat)
    (hnd : (current.map Prod.fst).Nodup) (hmem : (g, mg) ∈ current)
    (hold : lookup g last_snap = some mg') (hmod : mg' ≠ mg) :
    ((watch_cycle st last_snap current).1.2).filter (isUpdFor (fileUri g)) =
      (interestedSessions st (fileUri g)).map
        (fun s => Event.resourceUpdated s (fileUri g)) := by
  have hev : (watch_cycle st last_snap current).1.2 =
      (current.map (perFileEvents last_snap st.subscribers st.all_sessions)).flatten ++
      ((removedOf last_snap current).map
        (fun _ => st.all_sessions.map Event.listChanged)).flatten := by
    rw [watch_cycle_char]
  rw [hev, List.filter_append, filter_flatten_map, filter_flatten_map]
  rw [flatten_map_eq_nil _ (removedOf last_snap current)
    (fun x _ => filter_updFor_listChanged (fileUri g) st.all_sessions)]
  rw [List.append_nil]
  exact flatten_filter_current last_snap st.subscribers st.all_sessions g mg mg'
    hold hmod current hnd hmem

/-! ### Further helper lemmas -/

theorem lookup_isSome_of_mem {β : Type} (k : String) (v : β) (m : List (String × β))
    (h : (k, v) ∈ m) : (lookup k m).isSome := by
  induction m with
  | nil => simp at h
  | cons hd t ih =>
    rcases List.mem_cons.mp h with heq | hmemt
    · rw [← heq]
      simp [lookup]
    · by_cases he : hd.1 = k
      · simp [lookup, he]
      · simp only [lookup, he]
        simp [he]
        exact ih hmemt

theorem removedOf_key_none (last_snap current : Snap) (fm : String × Nat)
    (h : fm ∈ removedOf last_snap current) : lookup fm.1 current = none := by
  have h2 := (List.mem_filter.mp h).2
  simpa [Option.isNone_iff_eq_none] using h2

theorem lookup_phase1Res_of_not_new (last_snap : Snap) (u : Uri) :
    ∀ (l : List (String × Nat)),
    (∀ fm ∈ l, lookup fm.1 last_snap = none → fileUri fm.1 ≠ u) →
    ∀ res, lookup u (phase1Res last_snap l res) = lookup u res := by
  intro l
  induction l with
  | nil =>
    intro _ res
    simp [phase1Res]
  | cons hd t ih =>
    intro h res
    have ht : ∀ fm ∈ t, lookup fm.1 last_snap = none → fileUri fm.1 ≠ u :=
      fun fm hm => h fm (List.mem_cons_of_mem hd hm)
    cases hl : lookup hd.1 last_snap with
    | none =>
      have hhd : fileUri hd.1 ≠ u := h hd (List.mem_cons_self hd t) hl
      have hn : (lookup hd.1 last_snap).isNone := by simp [hl]
      simp only [phase1Res, if_pos hn]
      rw [ih ht]
      exact lookup_insertKey_ne (fileUri hd.1) u (mkFileResource hd.1) (Ne.symm hhd) res
    | some old =>
      have hn : ¬(lookup hd.1 last_snap).isNone := by simp [hl]
      simp only [phase1Res, if_neg hn]
      exact ih ht res

theorem listChanged_injective : Function.Injective Event.listChanged := by
  intro a b h
  injection h

/-! ### Claim C1 -/

/-- Claim C1 counterexample: with one session in the directory and an
empty registry, `remove_resource` on an absent uri still emits a
list-changed notification, contradicting the claim that a no-op removal
emits none. -/
theorem C1_remove_absent_notifies :
    (remove_resource ⟨[], [], [7]⟩ "file:///a").2 ≠ [] := by
  decide

/-- Claim C1 (amended): for a uri absent from the registry,
`remove_resource` leaves the registry unchanged but still broadcasts a
list-changed notification to every directory session, and a second
removal broadcasts a second identical batch (two batches, not one). -/
theorem C1_remove_absent_still_broadcasts (st : ServerState) (u : Uri)
    (h : lookup u st.resources = none) :
    (remove_resource st u).1.resources = st.resources ∧
    (remove_resource st u).2 = st.all_sessions.map Event.listChanged ∧
    (remove_resource (remove_resource st u).1 u).2 =
      st.all_sessions.map Event.listChanged := by
  refine ⟨?_, rfl, rfl⟩
  simp [remove_resource, h]

/-- Claim C1 witness: the amended theorem at a concrete state. -/
theorem C1_witness :
    lookup "file:///a" (ServerState.mk [] [] [7]).resources = none ∧
    ((remove_resource ⟨[], [], [7]⟩ "file:///a").1.resources =
        (ServerState.mk [] [] [7]).resources ∧
     (remove_resource ⟨[], [], [7]⟩ "file:///a").2 =
        (ServerState.mk [] [] [7]).all_sessions.map Event.listChanged ∧
     (remove_resource (remove_resource ⟨[], [], [7]⟩ "file:///a").1 "file:///a").2 =
        (ServerState.mk [] [] [7]).all_sessions.map Event.listChanged) :=
  ⟨by decide, C1_remove_absent_still_broadcasts ⟨[], [], [7]⟩ "file:///a" (by decide)⟩

/-! ### Claim C2 -/

/-- Claim C2 counterexample: `_on_unsubscribe` on a uri with no entry
stores an empty session set under that uri, so the invariant "an entry
exists only while at least one interested session remains" fails. -/
theorem C2_unsubscribe_leaves_empty_set :
    lookup "file:///a" (_on_unsubscribe ⟨[], [], []⟩ "file:///a" 3).subscribers =
      some [] := by
  decide

/-- Claim C2 (amended): the invariant holds for `_on_subscribe` (the
entry exists afterwards and contains the subscribing session, hence is
nonempty) and for `remove_resource` (the uri's entry is deleted
entirely), but `_on_unsubscribe` may leave or create an empty set stored
under a uri. -/
theorem C2_subscribe_remove_invariant (st : ServerState) (u : Uri) (s : Session) :
    s ∈ getD u (_on_subscribe st u s).subscribers [] ∧
    lookup u (remove_resource st u).1.subscribers = none := by
  constructor
  · have h1 : lookup u (_on_subscribe st u s).subscribers =
        some (setAdd (getD u st.subscribers []) s) :=
      lookup_insertKey_self u _ st.subscribers
    simp [getD, h1, setAdd_mem]
  · simp [remove_resource, lookup_eraseKey_self]

/-! ### Claim C3 -/

/-- Claim C3: `add_resource` upserts the resource under its uri (replacing
any previous entry, leaving other uris, the subscription index and the
session directory untouched) and always broadcasts exactly one
list-changed notification per directory session, including on replace. -/
theorem C3_add_upsert_broadcast (st : ServerState) (r : Resource) (u : Uri) (s : Session)
    (hu : u ≠ r.uri) :
    lookup r.uri (add_resource st r).1.resources = some r ∧
    lookup u (add_resource st r).1.resources = lookup u st.resources ∧
    (add_resource st r).1.subscribers = st.subscribers ∧
    (add_resource st r).1.all_sessions = st.all_sessions ∧
    (add_resource st r).2 = st.all_sessions.map Event.listChanged ∧
    (add_resource st r).2.count (Event.listChanged s) = st.all_sessions.count s := by
  refine ⟨?_, ?_, rfl, rfl, rfl, ?_⟩
  · exact lookup_insertKey_self r.uri r st.resources
  · exact lookup_insertKey_ne r.uri u r hu st.resources
  · exact List.count_map_of_injective st.all_sessions Event.listChanged
      listChanged_injective s

/-- Claim C3 witness: upsert over an existing uri, with one tracked
session, at concrete inputs. -/
theorem C3_witness :
    "file:///y" ≠ (Resource.mk "file:///x" "x1" "text/plain").uri ∧
    (lookup "file:///x"
        (add_resource
          ⟨[("file:///x", ⟨"file:///x", "x0", "text/plain"⟩)], [], [5]⟩
          ⟨"file:///x", "x1", "text/plain"⟩).1.resources =
        some ⟨"file:///x", "x1", "text/plain"⟩ ∧
     lookup "file:///y"
        (add_resource
          ⟨[("file:///x", ⟨"file:///x", "x0", "text/plain"⟩)], [], [5]⟩
          ⟨"file:///x", "x1", "text/plain"⟩).1.resources =
        lookup "file:///y"
          (ServerState.mk [("file:///x", ⟨"file:///x", "x0", "text/plain"⟩)] [] [5]).resources ∧
     (add_resource
          ⟨[("file:///x", ⟨"file:///x", "x0", "text/plain"⟩)], [], [5]⟩
          ⟨"file:///x", "x1", "text/plain"⟩).1.subscribers = [] ∧
     (add_resource
          ⟨[("file:///x", ⟨"file:///x", "x0", "text/plain"⟩)], [], [5]⟩
          ⟨"file:///x", "x1", "text/plain"⟩).1.all_sessions = [5] ∧
     (add_resource
          ⟨[("file:///x", ⟨"file:///x", "x0", "text/plain"⟩)], [], [5]⟩
          ⟨"file:///x", "x1", "text/plain"⟩).2 = [Event.listChanged 5] ∧
     (add_resource
          ⟨[("file:///x", ⟨"file:///x", "x0", "text/plain"⟩)], [], [5]⟩
          ⟨"file:///x", "x1", "text/plain"⟩).2.count (Event.listChanged 5) =
        ([5] : List Session).count 5) :=
  ⟨by decide,
   C3_add_upsert_broadcast
     ⟨[("file:///x", ⟨"file:///x", "x0", "text/plain"⟩)], [], [5]⟩
     ⟨"file:///x", "x1", "text/plain"⟩ "file:///y" 5 (by decide)⟩

/-! ### Claim C4 -/

/-- Claim C4: `remove_resource` on a present uri deletes the registry
entry, clears the uri's subscriber entry (so `InterestedSessions`
returns empty afterwards) and broadcasts a list-changed notification to
every directory session. -/
theorem C4_remove_present (st : ServerState) (u : Uri) (r : Resource)
    (h : lookup u st.resources = some r) :
    lookup u (remove_resource st u).1.resources = none ∧
    lookup u (remove_resource st u).1.subscribers = none ∧
    interestedSessions (remove_resource st u).1 u = [] ∧
    (remove_resource st u).2 = st.all_sessions.map Event.listChanged := by
  refine ⟨?_, ?_, ?_, rfl⟩
  · simp [remove_resource, h, lookup_eraseKey_self]
  · simp [remove_resource, lookup_eraseKey_self]
  · simp [interestedSessions, getD, remove_resource, lookup_eraseKey_self]

/-- Claim C4 witness: removal of a present uri with a subscribed session
and a tracked session, at concrete inputs. -/
theorem C4_witness :
    lookup "file:///x"
        (ServerState.mk [("file:///x", ⟨"file:///x", "x", "text/plain"⟩)]
          [("file:///x", [3])] [5]).resources =
      some ⟨"file:///x", "x", "text/plain"⟩ ∧
    (lookup "file:///x"
        (remove_resource
          ⟨[("file:///x", ⟨"file:///x", "x", "text/plain"⟩)], [("file:///x", [3])], [5]⟩
          "file:///x").1.resources = none ∧
     lookup "file:///x"
        (remove_resource
          ⟨[("file:///x", ⟨"file:///x", "x", "text/plain"⟩)], [("file:///x", [3])], [5]⟩
          "file:///x").1.subscribers = none ∧
     interestedSessions
        (remove_resource
          ⟨[("file:///x", ⟨"file:///x", "x", "text/plain"⟩)], [("file:///x", [3])], [5]⟩
          "file:///x").1 "file:///x" = [] ∧
     (remove_resource
          ⟨[("file:///x", ⟨"file:///x", "x", "text/plain"⟩)], [("file:///x", [3])], [5]⟩
          "file:///x").2 = [Event.listChanged 5]) :=
  ⟨by decide,
   C4_remove_present
     ⟨[("file:///x", ⟨"file:///x", "x", "text/plain"⟩)], [("file:///x", [3])], [5]⟩
     "file:///x" ⟨"file:///x", "x", "text/plain"⟩ (by decide)⟩

/-! ### Claim C5 -/

/-- Claim C5: resource-updated notifications are scoped by the
subscription index: a session subscribed to uri A but not to uri B never
receives a resource-updated event for B from any watcher cycle. -/
theorem C5_updated_scoped (st : ServerState) (last_snap current : Snap) (A B : Uri)
    (s : Session) (hA : s ∈ interestedSessions st A) (hAB : A ≠ B)
    (hB : s ∉ interestedSessions st B) :
    Event.resourceUpdated s B ∉ (watch_cycle st last_snap current).1.2 := by
  intro hmem
  exact hB (watch_cycle_updated_subscriber st last_snap current s B hmem)

/-- Claim C5 witness: a session subscribed to `file://a` receives no
update for `file://b` in a cycle where `b` is modified. -/
theorem C5_witness :
    3 ∈ interestedSessions ⟨[], [("file://a", [3])], []⟩ "file://a" ∧
    "file://a" ≠ "file://b" ∧
    3 ∉ interestedSessions ⟨[], [("file://a", [3])], []⟩ "file://b" ∧
    Event.resourceUpdated 3 "file://b" ∉
      (watch_cycle ⟨[], [("file://a", [3])], []⟩ [("b", 1)] [("b", 2)]).1.2 :=
  ⟨by decide, by decide, by decide,
   C5_updated_scoped ⟨[], [("file://a", [3])], []⟩ [("b", 1)] [("b", 2)]
     "file://a" "file://b" 3 (by decide) (by decide) (by decide)⟩

/-! ### Claim C7 -/

/-- Claim C7 counterexample: `_on_unsubscribe` for a non-subscriber does
not leave the subscription state unchanged when the uri has no entry:
the defaultdict stores a fresh empty set under the uri. -/
theorem C7_unsubscribe_changes_index :
    _on_unsubscribe ⟨[], [], []⟩ "file:///a" 3 ≠ (⟨[], [], []⟩ : ServerState) := by
  decide

/-- Claim C7 (amended): both handlers are no-ops up to the stored map's
empty entries and never error: subscribing twice equals subscribing
once exactly, and unsubscribing a non-subscriber leaves every uri's
interested-session list unchanged, though it may store an empty set
under a previously absent uri. -/
theorem C7_subscribe_idem_unsubscribe_preserves (st : ServerState) (u v : Uri)
    (s : Session) (h : s ∉ interestedSessions st u) :
    _on_subscribe (_on_subscribe st u s) u s = _on_subscribe st u s ∧
    interestedSessions (_on_unsubscribe st u s) v = interestedSessions st v := by
  constructor
  · have hcur : getD u (_on_subscribe st u s).subscribers [] =
        setAdd (getD u st.subscribers []) s := by
      have h1 : lookup u (_on_subscribe st u s).subscribers =
          some (setAdd (getD u st.subscribers []) s) :=
        lookup_insertKey_self u _ st.subscribers
      simp [getD, h1]
    show { _on_subscribe st u s with
        subscribers := insertKey u
          (setAdd (getD u (_on_subscribe st u s).subscribers []) s)
          (_on_subscribe st u s).subscribers } = _on_subscribe st u s
    rw [hcur, setAdd_of_mem (setAdd_mem (getD u st.subscribers []) s)]
    rw [insertKey_of_lookup_some u _ (_on_subscribe st u s).subscribers
      (lookup_insertKey_self u _ st.subscribers)]
  · by_cases hv : v = u
    · subst hv
      have h1 : lookup v (_on_unsubscribe st v s).subscribers =
          some (setDiscard (getD v st.subscribers []) s) :=
        lookup_insertKey_self v _ st.subscribers
      have h2 : setDiscard (getD v st.subscribers []) s = getD v st.subscribers [] :=
        setDiscard_of_not_mem h
      simp only [interestedSessions, getD, h1, Option.getD_some]
      simp only [getD] at h2
      exact h2
    · have h1 : lookup v (_on_unsubscribe st u s).subscribers = lookup v st.subscribers :=
        lookup_insertKey_ne u v _ hv st.subscribers
      simp [interestedSessions, getD, h1]

/-- Claim C7 witness: subscribing session 2 twice to a uri equals once,
and unsubscribing the non-subscriber 2 leaves the uri's interested
sessions unchanged, at concrete inputs. -/
theorem C7_witness :
    2 ∉ interestedSessions ⟨[], [("file:///a", [1])], []⟩ "file:///a" ∧
    (_on_subscribe (_on_subscribe ⟨[], [("file:///a", [1])], []⟩ "file:///a" 2)
        "file:///a" 2 =
      _on_subscribe ⟨[], [("file:///a", [1])], []⟩ "file:///a" 2 ∧
     interestedSessions
        (_on_unsubscribe ⟨[], [("file:///a", [1])], []⟩ "file:///a" 2) "file:///a" =
      interestedSessions ⟨[], [("file:///a", [1])], []⟩ "file:///a") :=
  ⟨by decide,
   C7_subscribe_idem_unsubscribe_preserves ⟨[], [("file:///a", [1])], []⟩
     "file:///a" "file:///a" 2 (by decide)⟩

/-! ### Claim C8 -/

/-- Claim C8: the tracked list handler registers the calling session in
the session directory before returning the listing, the registration is
idempotent (a repeat call leaves the state fixed, and the session is
counted exactly once), and the listing side effect does not touch the
registry. -/
theorem C8_tracked_list_registers (st : ServerState) (s : Session)
    (h : st.all_sessions.Nodup) :
    s ∈ (_tracked_list st s).1.all_sessions ∧
    (_tracked_list st s).1.all_sessions.count s = 1 ∧
    (_tracked_list (_tracked_list st s).1 s).1 = (_tracked_list st s).1 ∧
    (_tracked_list st s).1.resources = st.resources := by
  refine ⟨setAdd_mem st.all_sessions s, count_setAdd_self h s, ?_, rfl⟩
  show { (_tracked_list st s).1 with
      all_sessions := setAdd (setAdd st.all_sessions s) s } = (_tracked_list st s).1
  rw [setAdd_of_mem (setAdd_mem st.all_sessions s)]
  rfl

/-- Claim C8 witness: a session that already issued a list request is
still present exactly once after a further list request. -/
theorem C8_witness :
    ([4] : List Session).Nodup ∧
    (4 ∈ (_tracked_list ⟨[], [], [4]⟩ 4).1.all_sessions ∧
     (_tracked_list ⟨[], [], [4]⟩ 4).1.all_sessions.count 4 = 1 ∧
     (_tracked_list (_tracked_list ⟨[], [], [4]⟩ 4).1 4).1 =
       (_tracked_list ⟨[], [], [4]⟩ 4).1 ∧
     (_tracked_list ⟨[], [], [4]⟩ 4).1.resources = []) :=
  ⟨by decide, C8_tracked_list_registers ⟨[], [], [4]⟩ 4 (by decide)⟩

/-! ### Claim C9 -/

/-- Claim C9: `_on_unsubscribe` for a uri with no entry in the
subscription index creates an empty set entry for it (the index is a
default-constructing map), rather than leaving the index unchanged. -/
theorem C9_unsubscribe_creates_empty_entry (st : ServerState) (u : Uri) (s : Session)
    (h : lookup u st.subscribers = none) :
    lookup u (_on_unsubscribe st u s).subscribers = some [] ∧
    (_on_unsubscribe st u s).subscribers ≠ st.subscribers := by
  have h1 : lookup u (_on_unsubscribe st u s).subscribers = some [] := by
    have h2 : lookup u (_on_unsubscribe st u s).subscribers =
        some (setDiscard (getD u st.subscribers []) s) :=
      lookup_insertKey_self u _ st.subscribers
    simp [h2, getD, h, setDiscard]
  refine ⟨h1, ?_⟩
  intro he
  rw [he, h] at h1
  exact Option.noConfusion h1

/-- Claim C9 witness: unsubscribing from an unknown uri stores an empty
entry, at concrete inputs. -/
theorem C9_witness :
    lookup "file:///a" (ServerState.mk [] [] []).subscribers = none ∧
    (lookup "file:///a" (_on_unsubscribe ⟨[], [], []⟩ "file:///a" 3).subscribers =
        some [] ∧
     (_on_unsubscribe ⟨[], [], []⟩ "file:///a" 3).subscribers ≠
        (ServerState.mk [] [] []).subscribers) :=
  ⟨by decide, C9_unsubscribe_creates_empty_entry ⟨[], [], []⟩ "file:///a" 3 (by decide)⟩

/-! ### Claim C10 -/

/-- Claim C10: membership in the global session directory is monotone:
no core operation (add, remove, subscribe, unsubscribe, tracked list,
watcher cycle) removes a session from `all_sessions`, and a registered
session is included in the list-changed broadcast of every add and
remove. -/
theorem C10_sessions_monotone (st : ServerState) (s s' : Session) (r : Resource)
    (u v : Uri) (last_snap current : Snap) (h : s ∈ st.all_sessions) :
    s ∈ (add_resource st r).1.all_sessions ∧
    s ∈ (remove_resource st u).1.all_sessions ∧
    s ∈ (_on_subscribe st v s').all_sessions ∧
    s ∈ (_on_unsubscribe st v s').all_sessions ∧
    s ∈ (_tracked_list st s').1.all_sessions ∧
    s ∈ (watch_cycle st last_snap current).1.1.all_sessions ∧
    Event.listChanged s ∈ (add_resource st r).2 ∧
    Event.listChanged s ∈ (remove_resource st u).2 := by
  have hw : (watch_cycle st last_snap current).1.1.all_sessions = st.all_sessions := by
    rw [watch_cycle_char]
  refine ⟨h, h, h, h, mem_setAdd_of_mem h, ?_, ?_, ?_⟩
  · rw [hw]
    exact h
  · exact List.mem_map_of_mem Event.listChanged h
  · exact List.mem_map_of_mem Event.listChanged h

/-- Claim C10 witness: a registered session survives every operation and
appears in both broadcasts, at concrete inputs. -/
theorem C10_witness :
    3 ∈ (ServerState.mk [] [("file:///a", [3])] [3]).all_sessions ∧
    (3 ∈ (add_resource ⟨[], [("file:///a", [3])], [3]⟩ (mkFileResource "x")).1.all_sessions ∧
     3 ∈ (remove_resource ⟨[], [("file:///a", [3])], [3]⟩ "file:///a").1.all_sessions ∧
     3 ∈ (_on_subscribe ⟨[], [("file:///a", [3])], [3]⟩ "file:///b" 5).all_sessions ∧
     3 ∈ (_on_unsubscribe ⟨[], [("file:///a", [3])], [3]⟩ "file:///b" 5).all_sessions ∧
     3 ∈ (_tracked_list ⟨[], [("file:///a", [3])], [3]⟩ 5).1.all_sessions ∧
     3 ∈ (watch_cycle ⟨[], [("file:///a", [3])], [3]⟩ [("a", 1)] []).1.1.all_sessions ∧
     Event.listChanged 3 ∈
       (add_resource ⟨[], [("file:///a", [3])], [3]⟩ (mkFileResource "x")).2 ∧
     Event.listChanged 3 ∈
       (remove_resource ⟨[], [("file:///a", [3])], [3]⟩ "file:///a").2) :=
  ⟨by decide,
   C10_sessions_monotone ⟨[], [("file:///a", [3])], [3]⟩ 3 5 (mkFileResource "x")
     "file:///a" "file:///b" [("a", 1)] [] (by decide)⟩

/-! ### Claim C6 -/

/-- Claim C6: in one watcher poll cycle with a duplicate-free current
listing, a file new in `current` ends up added to the registry exactly
once as a lazily-reading resource; a file present in both snapshots with
a changed mtime produces exactly one batch of resource-updated
notifications to its interested sessions and no registry mutation at its
uri; a file gone from `current` is removed from the registry; the event
trace is exactly the per-file batches followed by the removal
broadcasts; and the snapshot is replaced wholesale by `current`. -/
theorem C6_watch_cycle (st : ServerState) (last_snap current : Snap)
    (hnd : (current.map Prod.fst).Nodup)
    (f : String) (mf : Nat) (hfmem : (f, mf) ∈ current)
    (hfnew : lookup f last_snap = none)
    (g : String) (mg mg' : Nat) (hgmem : (g, mg) ∈ current)
    (hgold : lookup g last_snap = some mg') (hgmod : mg' ≠ mg)
    (d : String) (md : Nat) (hdmem : (d, md) ∈ last_snap)
    (hdgone : lookup d current = none) :
    lookup (fileUri f) (watch_cycle st last_snap current).1.1.resources =
      some (mkFileResource f) ∧
    lookup (fileUri g) (watch_cycle st last_snap current).1.1.resources =
      lookup (fileUri g) st.resources ∧
    ((watch_cycle st last_snap current).1.2).filter (isUpdFor (fileUri g)) =
      (interestedSessions st (fileUri g)).map
        (fun s => Event.resourceUpdated s (fileUri g)) ∧
    lookup (fileUri d) (watch_cycle st last_snap current).1.1.resources = none ∧
    (watch_cycle st last_snap current).1.2 =
      (current.map (perFileEvents last_snap st.subscribers st.all_sessions)).flatten ++
      ((removedOf last_snap current).map
        (fun _ => st.all_sessions.map Event.listChanged)).flatten ∧
    (watch_cycle st last_snap current).2 = current := by
  have hres : (watch_cycle st last_snap current).1.1.resources =
      eraseFold (removedOf last_snap current)
        (phase1Res last_snap current st.resources) := by
    rw [watch_cycle_char]
  have hkeyOf : ∀ k : String, (lookup k current).isSome →
      ∀ fm ∈ removedOf last_snap current, fileUri fm.1 ≠ fileUri k := by
    intro k hk fm hm he
    have h1 : fm.1 = k := fileUri_injective he
    have h2 : lookup fm.1 current = none := removedOf_key_none last_snap current fm hm
    rw [h1] at h2
    rw [h2] at hk
    simp at hk
  refine ⟨?_, ?_, ?_, ?_, ?_, ?_⟩
  · rw [hres,
      lookup_eraseFold_of_ne (fileUri f) (removedOf last_snap current)
        (hkeyOf f (lookup_isSome_of_mem f mf current hfmem))]
    exact lookup_phase1Res_new last_snap f current mf hfmem hnd hfnew st.resources
  · rw [hres,
      lookup_eraseFold_of_ne (fileUri g) (removedOf last_snap current)
        (hkeyOf g (lookup_isSome_of_mem g mg current hgmem))]
    apply lookup_phase1Res_of_not_new
    intro fm hm hnew he
    have h1 : fm.1 = g := fileUri_injective he
    rw [h1, hgold] at hnew
    exact Option.noConfusion hnew
  · exact watch_cycle_filter_updated st last_snap current g mg mg' hnd hgmem hgold hgmod
  · rw [hres]
    have hdrem : (d, md) ∈ removedOf last_snap current := by
      apply List.mem_filter.mpr
      exact ⟨hdmem, by simp [hdgone]⟩
    exact lookup_eraseFold_mem d md (removedOf last_snap current) hdrem _
  · rw [watch_cycle_char]
  · rw [watch_cycle_char]

/-- Claim C6 witness: one cycle over a directory where `f` is new, `g`
is modified (with session 4 subscribed to its uri) and `d` was deleted,
from two tracked sessions' point of view. -/
theorem C6_witness :
    ((([("g", 2), ("f", 5)] : Snap).map Prod.fst).Nodup ∧
     (("f", 5) ∈ ([("g", 2), ("f", 5)] : Snap)) ∧
     lookup "f" ([("g", 1), ("d", 1)] : Snap) = none ∧
     (("g", 2) ∈ ([("g", 2), ("f", 5)] : Snap)) ∧
     lookup "g" ([("g", 1), ("d", 1)] : Snap) = some 1 ∧
     (1 : Nat) ≠ 2 ∧
     (("d", 1) ∈ ([("g", 1), ("d", 1)] : Snap)) ∧
     lookup "d" ([("g", 2), ("f", 5)] : Snap) = none) ∧
    (lookup (fileUri "f")
        (watch_cycle
          ⟨[("file://g", mkFileResource "g"), ("file://d", mkFileResource "d")],
           [("file://g", [4])], [9]⟩
          [("g", 1), ("d", 1)] [("g", 2), ("f", 5)]).1.1.resources =
        some (mkFileResource "f") ∧
     lookup (fileUri "g")
        (watch_cycle
          ⟨[("file://g", mkFileResource "g"), ("file://d", mkFileResource "d")],
           [("file://g", [4])], [9]⟩
          [("g", 1), ("d", 1)] [("g", 2), ("f", 5)]).1.1.resources =
        lookup (fileUri "g")
          (ServerState.mk
            [("file://g", mkFileResource "g"), ("file://d", mkFileResource "d")]
            [("file://g", [4])] [9]).resources ∧
     ((watch_cycle
          ⟨[("file://g", mkFileResource "g"), ("file://d", mkFileResource "d")],
           [("file://g", [4])], [9]⟩
          [("g", 1), ("d", 1)] [("g", 2), ("f", 5)]).1.2).filter
            (isUpdFor (fileUri "g")) =
        (interestedSessions
          (ServerState.mk
            [("file://g", mkFileResource "g"), ("file://d", mkFileResource "d")]
            [("file://g", [4])] [9]) (fileUri "g")).map
          (fun s => Event.resourceUpdated s (fileUri "g")) ∧
     lookup (fileUri "d")
        (watch_cycle
          ⟨[("file://g", mkFileResource "g"), ("file://d", mkFileResource "d")],
           [("file://g", [4])], [9]⟩
          [("g", 1), ("d", 1)] [("g", 2), ("f", 5)]).1.1.resources = none ∧
     (watch_cycle
          ⟨[("file://g", mkFileResource "g"), ("file://d", mkFileResource "d")],
           [("file://g", [4])], [9]⟩
          [("g", 1), ("d", 1)] [("g", 2), ("f", 5)]).1.2 =
        (([("g", 2), ("f", 5)] : Snap).map
          (perFileEvents [("g", 1), ("d", 1)]
            (ServerState.mk
              [("file://g", mkFileResource "g"), ("file://d", mkFileResource "d")]
              [("file://g", [4])] [9]).subscribers
            (ServerState.mk
              [("file://g", mkFileResource "g"), ("file://d", mkFileResource "d")]
              [("file://g", [4])] [9]).all_sessions)).flatten ++
        ((removedOf [("g", 1), ("d", 1)] [("g", 2), ("f", 5)]).map
          (fun _ =>
            (ServerState.mk
              [("file://g", mkFileResource "g"), ("file://d", mkFileResource "d")]
              [("file://g", [4])] [9]).all_sessions.map Event.listChanged)).flatten ∧
     (watch_cycle
          ⟨[("file://g", mkFileResource "g"), ("file://d", mkFileResource "d")],
           [("file://g", [4])], [9]⟩
          [("g", 1), ("d", 1)] [("g", 2), ("f", 5)]).2 = [("g", 2), ("f", 5)]) :=
  ⟨⟨by decide, by decide, by decide, by decide, by decide, by decide, by decide,
    by decide⟩,
   C6_watch_cycle
     ⟨[("file://g", mkFileResource "g"), ("file://d", mkFileResource "d")],
      [("file://g", [4])], [9]⟩
     [("g", 1), ("d", 1)] [("g", 2), ("f", 5)] (by decide)
     "f" 5 (by decide) (by decide)
     "g" 2 1 (by decide) (by decide) (by decide)
     "d" 1 (by decide) (by decide)⟩

end DemoMcp
